import Mathlib

/-!
# Verification of the cimis-cli concurrent fetch pipeline

Shallow embedding of the core of the `cimis-cli` repository: the error
classifier, the station-list resolver and its exchange sort, the retry
controller with backoff/jitter, the streaming decode path with its date
parsers, and the worker-pool dispatch/aggregation contract.  Go strings are
modelled as `List Char`, Go `error` values by their message text, machine
integers as `Int`/`Nat` (overflow is irrelevant at the ranges exercised
here, and noted where it would matter).
-/

namespace Cimis

/-- A Go `error` value, modelled by its message text (`err.Error()`). -/
abbrev GoError := List Char

/-! ## Go string primitives used by the source -/

/-- Predicate `startsWithL s p`: `p` is a leading segment of `s` (helper for `strings.Contains`). -/
def startsWithL : List Char → List Char → Bool
  | _, [] => true
  | [], _ :: _ => false
  | c :: cs, d :: ds => c == d && startsWithL cs ds

/-- Go `strings.Contains s sub`: `sub` occurs as a contiguous substring of `s`. -/
def containsSub : List Char → List Char → Bool
  | [], sub => startsWithL [] sub
  | c :: cs, sub => startsWithL (c :: cs) sub || containsSub cs sub

/-! ## Error classifier (`ClassifyRetryableError`, src/unnamed/part_005) -/

/-- Structure `RetryableError` from src/unnamed/part_005 (the wrapped `Err` is kept as
its text). -/
structure RetryableError where
  Err : GoError
  StatusCode : Int
  ShouldRetry : Bool
  deriving DecidableEq, Repr

/-- The six substrings scanned by `ClassifyRetryableError`. -/
def retryKeywords : List (List Char) :=
  [("timeout".data), ("connection refused".data), ("connection reset".data),
   ("EOF".data), ("broken pipe".data), ("no such host".data)]

/-- Function `containsAny` from src/unnamed/part_005. -/
def containsAny (s : List Char) (substrs : List (List Char)) : Bool :=
  substrs.any (fun sub => containsSub s sub)

/-- Function `ClassifyRetryableError` from src/unnamed/part_005, lines 65-85. -/
def ClassifyRetryableError (err : Option GoError) (statusCode : Int) :
    Option RetryableError :=
  match err with
  | none => none
  | some e =>
    if 400 ≤ statusCode ∧ statusCode < 500 ∧ statusCode ≠ 429 then
      some ⟨e, statusCode, false⟩
    else if statusCode = 429 ∨ 500 ≤ statusCode then
      some ⟨e, statusCode, true⟩
    else if containsAny e retryKeywords then
      some ⟨e, statusCode, true⟩
    else
      some ⟨e, statusCode, false⟩

/-- Closed form of `ClassifyRetryableError` on a non-nil error: the three
status-code tests collapse to a nested conditional whose final branch is the
keyword scan. -/
theorem classify_some_eq (e : GoError) (s : Int) :
    ClassifyRetryableError (some e) s =
      if 400 ≤ s ∧ s < 500 ∧ s ≠ 429 then some ⟨e, s, false⟩
      else if s = 429 ∨ 500 ≤ s then some ⟨e, s, true⟩
      else some ⟨e, s, containsAny e retryKeywords⟩ := by
  unfold ClassifyRetryableError
  by_cases h1 : 400 ≤ s ∧ s < 500 ∧ s ≠ 429
  · simp [h1]
  · by_cases h2 : s = 429 ∨ 500 ≤ s
    · simp [h1, h2]
    · cases hb : containsAny e retryKeywords <;> simp [h1, h2, hb]

/-- C1: `ClassifyRetryableError` returns `none` on a nil error; otherwise the
result's `StatusCode` equals the argument; a 4xx status other than 429 is
terminal; 429 or any 5xx is retryable; in every remaining case the verdict is
exactly the keyword scan over the error text.  The rules hold in this priority
order (the embedding is a pure function, so purity is by construction). -/
theorem C1_classify_rules (e : GoError) (s : Int) :
    ClassifyRetryableError none s = none ∧
    (∀ r, ClassifyRetryableError (some e) s = some r → r.StatusCode = s) ∧
    (400 ≤ s ∧ s < 500 ∧ s ≠ 429 →
      ClassifyRetryableError (some e) s = some ⟨e, s, false⟩) ∧
    (s = 429 ∨ 500 ≤ s →
      ClassifyRetryableError (some e) s = some ⟨e, s, true⟩) ∧
    (¬(400 ≤ s ∧ s < 500 ∧ s ≠ 429) → ¬(s = 429 ∨ 500 ≤ s) →
      ClassifyRetryableError (some e) s =
        some ⟨e, s, containsAny e retryKeywords⟩) := by
  refine ⟨rfl, ?_, ?_, ?_, ?_⟩
  · intro r hr
    rw [classify_some_eq] at hr
    split_ifs at hr <;> (cases hr; rfl)
  · intro h
    rw [classify_some_eq, if_pos h]
  · intro h
    rw [classify_some_eq, if_neg (by omega), if_pos h]
  · intro h1 h2
    rw [classify_some_eq, if_neg h1, if_neg h2]

/-- Witness for C1 at a concrete input: a generic transport error whose text
contains `timeout`, with status code 0, is classified retryable. -/
theorem C1_classify_rules_witness :
    ClassifyRetryableError (some ("dial tcp: i/o timeout".data)) 0 =
      some ⟨("dial tcp: i/o timeout".data), 0, true⟩ := by
  have h := (C1_classify_rules ("dial tcp: i/o timeout".data) 0).2.2.2.2
    (by decide) (by decide)
  rw [h]
  decide

/-! ## Station list resolver (`parseStationList`, src/cmd/cimisdb/ingest_opt.go) -/

/-- Go `strings.Split s sep` for a single-character separator: splitting the
empty string yields `[""]`, and `n` separators yield `n+1` fields. -/
def splitOnChar (sep : Char) : List Char → List (List Char)
  | [] => [[]]
  | c :: rest =>
    if c = sep then [] :: splitOnChar sep rest
    else
      match splitOnChar sep rest with
      | [] => [[c]]
      | h :: t => (c :: h) :: t

/-- The ASCII whitespace recognised by Go `strings.TrimSpace` on the inputs
in scope (space, tab, newline, carriage return, vertical tab, form feed). -/
def isSpaceChar (c : Char) : Bool :=
  c = ' ' || c = '\t' || c = '\n' || c = '\r' ||
  c = (Char.ofNat 11) || c = (Char.ofNat 12)

/-- Go `strings.TrimSpace`: drop whitespace from both ends. -/
def trimSpace (s : List Char) : List Char :=
  ((s.dropWhile isSpaceChar).reverse.dropWhile isSpaceChar).reverse

/-- Decimal digits of a token, most significant first; `none` when a
non-digit appears.  Helper for `strconv.Atoi`. -/
def digitsToNat : List Char → Nat → Option Nat
  | [], acc => some acc
  | c :: rest, acc =>
    if '0' ≤ c ∧ c ≤ '9' then
      digitsToNat rest (acc * 10 + (c.toNat - 48))
    else none

/-- Go `strconv.Atoi`: optional sign then a non-empty run of digits; any
other shape is an `invalid syntax` error.  Overflow is not modelled (the
claims only exercise small identifiers). -/
def atoi (s : List Char) : Except GoError Int :=
  match s with
  | [] => .error ("invalid syntax".data)
  | c :: rest =>
    let neg := c = '-'
    let ds := if c = '-' ∨ c = '+' then rest else c :: rest
    match ds with
    | [] => .error ("invalid syntax".data)
    | _ =>
      match digitsToNat ds 0 with
      | some n => .ok (if neg then -(n : Int) else (n : Int))
      | none => .error ("invalid syntax".data)

/-- The loop `for i := start; i <= end; i++ { append(stations, i) }` from
`parseStationList`: the ascending run from `lo` to `hi` inclusive, empty when
`hi < lo`. -/
def forRange (lo hi : Int) : List Int :=
  (List.range ((hi - lo + 1).toNat)).map (fun k => lo + (k : Int))

/-- The body of `parseStationList`'s loop for one comma-separated token:
trim, treat a token containing `-` as a two-bound range, otherwise a bare
integer. -/
def parsePart (part0 : List Char) : Except GoError (List Int) :=
  let part := trimSpace part0
  if part.contains '-' then
    match splitOnChar '-' part with
    | [a, b] =>
      match atoi (trimSpace a) with
      | .error _ => .error ("invalid range start".data)
      | .ok lo =>
        match atoi (trimSpace b) with
        | .error _ => .error ("invalid range end".data)
        | .ok hi => .ok (forRange lo hi)
    | _ => .error ("invalid range format".data)
  else
    match atoi part with
    | .ok sid => .ok [sid]
    | .error _ => .error ("invalid station ID".data)

/-- The fold of `parsePart` over all comma-separated tokens, stopping at the
first error (mirrors the early `return nil, err` in the Go loop). -/
def parseParts : List (List Char) → Except GoError (List Int)
  | [] => .ok []
  | p :: ps =>
    match parsePart p with
    | .error e => .error e
    | .ok xs =>
      match parseParts ps with
      | .error e => .error e
      | .ok rest => .ok (xs ++ rest)

/-- Function `parseStationList` from src/cmd/cimisdb/ingest_opt.go, lines 839-871. -/
def parseStationList (input : List Char) : Except GoError (List Int) :=
  parseParts (splitOnChar ',' input)

example : parseStationList ("2,5-7,10".data) = .ok [2, 5, 6, 7, 10] := rfl
example : (parseStationList ("abc".data)).isOk = false := by decide
example : (parseStationList ("1-2-3".data)).isOk = false := by decide
example : (parseStationList ("1,5-x".data)).isOk = false := by decide
example : parseStationList ("5-1".data) = .ok [] := rfl

/-! ## `sortStations`: the pairwise exchange sort (ingest_opt.go, lines 873-881) -/

/-- Exchange of two positions, the parallel assignment
`stations[i], stations[j] = stations[j], stations[i]` in `sortStations`. -/
def swapL (l : List Int) (i j : Nat) : List Int :=
  (l.set i (l.getD j 0)).set j (l.getD i 0)

/-- Inner loop of `sortStations`:
`for j := i+1; j < len; j++ { if stations[j] < stations[i] { swap } }`. -/
def innerLoop (l : List Int) (i j : Nat) : List Int :=
  if h : j < l.length then
    innerLoop (if l.getD j 0 < l.getD i 0 then swapL l i j else l) i (j + 1)
  else l
termination_by l.length - j
decreasing_by
  split
  · simp only [swapL, List.length_set]
    omega
  · omega

/-- Fuelled form of length preservation for `innerLoop`. -/
theorem innerLoop_len (i : Nat) : ∀ (k : Nat) (l : List Int) (j : Nat),
    l.length - j = k → (innerLoop l i j).length = l.length := by
  intro k
  induction k with
  | zero =>
    intro l j hk
    rw [innerLoop.eq_def, dif_neg (by omega)]
  | succ k ih =>
    intro l j hk
    rw [innerLoop.eq_def, dif_pos (by omega : j < l.length)]
    have hlen : (if l.getD j 0 < l.getD i 0 then swapL l i j else l).length = l.length := by
      split
      · simp [swapL]
      · rfl
    rw [ih _ _ (by rw [hlen]; omega)]
    exact hlen

/-- Functional reading of one pass of the inner loop: scanning the suffix
while holding the current minimum at position `i` selects the least element
and scatters the displaced ones in place.  Used only to reason about
`innerLoop`; the equivalence is `innerLoop_append`. -/
def selectMin : Int → List Int → Int × List Int
  | x, [] => (x, [])
  | x, y :: ys =>
    if y < x then
      ((selectMin y ys).1, x :: (selectMin y ys).2)
    else
      ((selectMin x ys).1, y :: (selectMin x ys).2)

/-- One selection pass keeps the suffix length. -/
theorem selectMin_snd_length (x : Int) (s : List Int) :
    (selectMin x s).2.length = s.length := by
  induction s generalizing x with
  | nil => rfl
  | cons y ys ih => by_cases h : y < x <;> simp [selectMin, h, ih]

/-- Reading just past a known block returns the element there. -/
theorem getD_append_len (pre : List Int) (y : Int) (ys : List Int) :
    (pre ++ y :: ys).getD pre.length 0 = y := by
  induction pre with
  | nil => rfl
  | cons a l ih => simpa using ih

/-- Writing just past a known block replaces the element there. -/
theorem set_append_len (pre : List Int) (y : Int) (ys : List Int) (x : Int) :
    (pre ++ y :: ys).set pre.length x = pre ++ x :: ys := by
  induction pre with
  | nil => rfl
  | cons a l ih => simp [List.set, ih]

/-- The inner loop of `sortStations`, started at position `i = pre.length`
with the scan at `j = i + 1 + mid.length`, performs exactly one `selectMin`
pass over the unscanned suffix. -/
theorem innerLoop_append (pre suf : List Int) :
    ∀ (x : Int) (mid : List Int),
      innerLoop (pre ++ x :: (mid ++ suf)) pre.length (pre.length + 1 + mid.length) =
        pre ++ (selectMin x suf).1 :: (mid ++ (selectMin x suf).2) := by
  induction suf with
  | nil =>
    intro x mid
    rw [innerLoop.eq_def,
      dif_neg (by simp only [List.length_append, List.length_cons, List.append_nil]; omega)]
    simp [selectMin]
  | cons y ys ih =>
    intro x mid
    have hLen : (pre ++ x :: mid).length = pre.length + 1 + mid.length := by
      simp only [List.length_append, List.length_cons]
      omega
    rw [innerLoop.eq_def,
      dif_pos (by simp only [List.length_append, List.length_cons]; omega :
        pre.length + 1 + mid.length < (pre ++ x :: (mid ++ y :: ys)).length)]
    have hgj : (pre ++ x :: (mid ++ y :: ys)).getD (pre.length + 1 + mid.length) 0 = y := by
      have e1 : pre ++ x :: (mid ++ y :: ys) = (pre ++ x :: mid) ++ y :: ys := by simp
      rw [← hLen, e1]
      exact getD_append_len _ _ _
    have hgi : (pre ++ x :: (mid ++ y :: ys)).getD pre.length 0 = x :=
      getD_append_len _ _ _
    rw [hgj, hgi]
    by_cases hyx : y < x
    · rw [if_pos hyx]
      have hswap : swapL (pre ++ x :: (mid ++ y :: ys)) pre.length
          (pre.length + 1 + mid.length) = pre ++ y :: (mid ++ x :: ys) := by
        unfold swapL
        rw [hgj, hgi, set_append_len]
        have hLen2 : (pre ++ y :: mid).length = pre.length + 1 + mid.length := by
          simp only [List.length_append, List.length_cons]
          omega
        have e2 : pre ++ y :: (mid ++ y :: ys) = (pre ++ y :: mid) ++ y :: ys := by simp
        rw [e2, ← hLen2, set_append_len]
        simp
      rw [hswap]
      have harr : pre ++ y :: (mid ++ x :: ys) = pre ++ y :: ((mid ++ [x]) ++ ys) := by
        simp
      have hidx : pre.length + 1 + mid.length + 1 = pre.length + 1 + (mid ++ [x]).length := by
        simp only [List.length_append, List.length_cons, List.length_nil]
        omega
      rw [harr, hidx, ih y (mid ++ [x])]
      simp [selectMin, hyx]
    · rw [if_neg hyx]
      have harr : pre ++ x :: (mid ++ y :: ys) = pre ++ x :: ((mid ++ [y]) ++ ys) := by
        simp
      have hidx : pre.length + 1 + mid.length + 1 = pre.length + 1 + (mid ++ [y]).length := by
        simp only [List.length_append, List.length_cons, List.length_nil]
        omega
      rw [harr, hidx, ih x (mid ++ [y])]
      simp [selectMin, hyx]

/-- The inner loop preserves the length of the station list. -/
theorem innerLoop_length (l : List Int) (i j : Nat) :
    (innerLoop l i j).length = l.length :=
  innerLoop_len i (l.length - j) l j rfl

/-- Outer loop of `sortStations`: `for i := 0; i < len-1; i++ { inner }`. -/
def outerLoop (l : List Int) (i : Nat) : List Int :=
  if h : i + 1 < l.length then outerLoop (innerLoop l i (i + 1)) (i + 1) else l
termination_by l.length - i
decreasing_by
  rw [innerLoop_length]
  omega

/-- Recursive reading of the whole exchange sort (one `selectMin` pass per
outer iteration); `outerLoop_aux` proves it equal to the loop form. -/
def selSort : List Int → List Int
  | [] => []
  | x :: xs => (selectMin x xs).1 :: selSort (selectMin x xs).2
termination_by l => l.length
decreasing_by
  simp only [selectMin_snd_length, List.length_cons]
  omega

/-- The outer loop, started at `i = pre.length` on a list with sorted prefix
`pre`, computes `selSort` of the remaining suffix. -/
theorem outerLoop_aux : ∀ (n : Nat) (rest : List Int), rest.length = n →
    ∀ pre : List Int, outerLoop (pre ++ rest) pre.length = pre ++ selSort rest := by
  intro n
  induction n using Nat.strong_induction_on with
  | _ n ih =>
    intro rest hn pre
    match rest, hn with
    | [], hn =>
      rw [outerLoop.eq_def,
        dif_neg (by simp only [List.append_nil, Nat.not_lt]; omega)]
      simp [selSort]
    | [a], hn =>
      rw [outerLoop.eq_def,
        dif_neg (by simp only [List.length_append, List.length_cons, List.length_nil,
          Nat.not_lt]; omega)]
      simp [selSort, selectMin]
    | x :: y :: ys, hn =>
      rw [outerLoop.eq_def,
        dif_pos (by simp only [List.length_append, List.length_cons]; omega :
          pre.length + 1 < (pre ++ x :: y :: ys).length)]
      have h1 : innerLoop (pre ++ x :: y :: ys) pre.length (pre.length + 1) =
          pre ++ (selectMin x (y :: ys)).1 :: (selectMin x (y :: ys)).2 := by
        have h := innerLoop_append pre (y :: ys) x []
        simpa using h
      rw [h1]
      have e3 : pre ++ (selectMin x (y :: ys)).1 :: (selectMin x (y :: ys)).2 =
          (pre ++ [(selectMin x (y :: ys)).1]) ++ (selectMin x (y :: ys)).2 := by simp
      have hidx : pre.length + 1 = (pre ++ [(selectMin x (y :: ys)).1]).length := by simp
      rw [e3, hidx,
        ih ((selectMin x (y :: ys)).2.length)
          (by rw [selectMin_snd_length]; simp only [List.length_cons] at hn ⊢; omega)
          ((selectMin x (y :: ys)).2) rfl]
      simp [selSort]

/-- Function `sortStations` from src/cmd/cimisdb/ingest_opt.go, lines 873-881
(result of running both loops, as a pure function on the station slice). -/
def sortStations (l : List Int) : List Int := outerLoop l 0

/-- The loop implementation equals the recursive selection sort. -/
theorem sortStations_eq_selSort (l : List Int) : sortStations l = selSort l := by
  have h := outerLoop_aux l.length l rfl []
  simpa [sortStations] using h

/-- A selection pass permutes its input. -/
theorem selectMin_perm (x : Int) (s : List Int) :
    ((selectMin x s).1 :: (selectMin x s).2).Perm (x :: s) := by
  induction s generalizing x with
  | nil => simp [selectMin]
  | cons y ys ih =>
    by_cases h : y < x
    · simp only [selectMin, if_pos h]
      exact (List.Perm.swap x (selectMin y ys).1 (selectMin y ys).2).trans ((ih y).cons x)
    · simp only [selectMin, if_neg h]
      exact (List.Perm.swap y (selectMin x ys).1 (selectMin x ys).2).trans
        (((ih x).cons y).trans (List.Perm.swap x y ys))

/-- A selection pass returns the minimum of its input. -/
theorem selectMin_min (x : Int) (s : List Int) :
    (selectMin x s).1 ≤ x ∧ ∀ a ∈ (selectMin x s).2, (selectMin x s).1 ≤ a := by
  induction s generalizing x with
  | nil => simp [selectMin]
  | cons y ys ih =>
    by_cases h : y < x
    · simp only [selectMin, if_pos h]
      refine ⟨le_of_lt (lt_of_le_of_lt (ih y).1 h), ?_⟩
      intro a ha
      rcases List.mem_cons.1 ha with rfl | ha2
      · exact le_of_lt (lt_of_le_of_lt (ih y).1 h)
      · exact (ih y).2 a ha2
    · simp only [selectMin, if_neg h]
      refine ⟨(ih x).1, ?_⟩
      intro a ha
      rcases List.mem_cons.1 ha with rfl | ha2
      · exact le_trans (ih x).1 (not_lt.1 h)
      · exact (ih x).2 a ha2

/-- Selection sort permutes its input. -/
theorem selSort_perm : ∀ (n : Nat) (l : List Int), l.length = n → (selSort l).Perm l := by
  intro n
  induction n using Nat.strong_induction_on with
  | _ n ih =>
    intro l hn
    match l, hn with
    | [], _ => simp [selSort]
    | x :: xs, hn =>
      rw [selSort]
      have hp := ih ((selectMin x xs).2.length)
        (by rw [selectMin_snd_length]; simp only [List.length_cons] at hn; omega)
        ((selectMin x xs).2) rfl
      exact (hp.cons _).trans (selectMin_perm x xs)

/-- Selection sort sorts. -/
theorem selSort_sorted : ∀ (n : Nat) (l : List Int), l.length = n →
    List.Sorted (fun a b => a ≤ b) (selSort l) := by
  intro n
  induction n using Nat.strong_induction_on with
  | _ n ih =>
    intro l hn
    match l, hn with
    | [], _ => simp [selSort]
    | x :: xs, hn =>
      rw [selSort]
      rw [List.sorted_cons]
      have hlt : (selectMin x xs).2.length < n := by
        rw [selectMin_snd_length]
        simp only [List.length_cons] at hn
        omega
      refine ⟨?_, ih _ hlt _ rfl⟩
      intro b hb
      have hbmem : b ∈ (selectMin x xs).2 :=
        ((selSort_perm _ _ rfl).mem_iff).1 hb
      exact (selectMin_min x xs).2 b hbmem

/-- Composite: `sortStations` yields a non-decreasing permutation of its
input. -/
theorem sortStations_sorted_perm (l : List Int) :
    List.Sorted (fun a b => a ≤ b) (sortStations l) ∧ (sortStations l).Perm l := by
  rw [sortStations_eq_selSort]
  exact ⟨selSort_sorted l.length l rfl, selSort_perm l.length l rfl⟩

example : sortStations [2, 5, 6, 7, 10] = [2, 5, 6, 7, 10] := by
  have h := sortStations_sorted_perm [2, 5, 6, 7, 10]
  exact List.eq_of_perm_of_sorted h.2 h.1 (by decide)

/-- C5: parsing `"2,5-7,10"` yields the expansion `[2,5,6,7,10]`, already the
ascending order that sorting preserves; parsing fails on a non-integer token
(`"abc"`), on a range of wrong arity (`"1-2-3"`), and on an unparsable range
bound on either side; and `sortStations` turns every integer list into a
non-decreasing permutation of itself. -/
theorem C5_resolver_and_sort (l : List Int) :
    parseStationList ("2,5-7,10".data) = .ok [2, 5, 6, 7, 10] ∧
    sortStations [2, 5, 6, 7, 10] = [2, 5, 6, 7, 10] ∧
    (parseStationList ("abc".data)).isOk = false ∧
    (parseStationList ("1-2-3".data)).isOk = false ∧
    (parseStationList ("2,x-7".data)).isOk = false ∧
    (parseStationList ("2,5-x".data)).isOk = false ∧
    List.Sorted (fun a b => a ≤ b) (sortStations l) ∧ (sortStations l).Perm l := by
  refine ⟨rfl, ?_, by decide, by decide, by decide, by decide,
    (sortStations_sorted_perm l).1, (sortStations_sorted_perm l).2⟩
  have h := sortStations_sorted_perm [2, 5, 6, 7, 10]
  exact List.eq_of_perm_of_sorted h.2 h.1 (by decide)

/-- C9: a range token whose low bound exceeds its high bound parses without
error and contributes zero identifiers: the expansion loop is empty, the
whole parse succeeds around such a token exactly as if the token produced
nothing, and in particular `parseStationList "5-1"` succeeds with the empty
list. -/
theorem C9_reversed_range (part a b : List Char) (lo hi : Int)
    (hc : (trimSpace part).contains '-' = true)
    (hsplit : splitOnChar '-' (trimSpace part) = [a, b])
    (ha : atoi (trimSpace a) = .ok lo)
    (hb : atoi (trimSpace b) = .ok hi)
    (hrev : hi < lo) :
    parsePart part = .ok [] ∧
    (∀ (pre post : List (List Char)) (xs ys : List Int),
      parseParts pre = .ok xs → parseParts post = .ok ys →
      parseParts (pre ++ part :: post) = .ok (xs ++ ys)) ∧
    parseStationList ("5-1".data) = .ok [] := by
  have hpp : parsePart part = .ok [] := by
    unfold parsePart
    rw [if_pos hc, hsplit]
    simp only [ha, hb]
    have hz : (hi - lo + 1).toNat = 0 := by omega
    simp [forRange, hz]
  refine ⟨hpp, ?_, rfl⟩
  intro pre post xs ys hpre hpost
  induction pre generalizing xs with
  | nil =>
    injection hpre with hxs
    subst hxs
    simp only [List.nil_append, parseParts, hpp, hpost]
  | cons p ps ih =>
    rw [parseParts] at hpre
    rcases hp : parsePart p with e | zs
    · rw [hp] at hpre
      exact absurd hpre (by simp)
    · rw [hp] at hpre
      rcases hps : parseParts ps with e | ws
      · rw [hps] at hpre
        exact absurd hpre (by simp)
      · rw [hps] at hpre
        injection hpre with hxs
        subst hxs
        have h2 := ih ws hps
        rw [List.cons_append, parseParts]
        rw [hp, h2]
        simp

/-- Witness for C9 on the token `"5-1"` itself, also placed between two
well-formed tokens. -/
theorem C9_reversed_range_witness :
    parsePart ("5-1".data) = .ok [] ∧
    parseParts [("2".data), ("5-1".data), ("7".data)] = .ok [2, 7] ∧
    parseStationList ("5-1".data) = .ok [] := by
  have h := C9_reversed_range ("5-1".data) ("5".data) ("1".data) 5 1
    (by decide) (by decide) rfl rfl (by decide)
  refine ⟨h.1, ?_, h.2.2⟩
  have h2 := h.2.1 [("2".data)] [("7".data)] [2] [7] rfl rfl
  exact h2


/-! ## Calendar arithmetic and the two date parsers -/

/-- Leap-year rule of the proleptic Gregorian calendar (as in Go `time`). -/
def isLeapYear (y : Nat) : Bool := y % 4 == 0 && (y % 100 != 0 || y % 400 == 0)

/-- Days in month `m` of year `y` (used by the reference parser's
`day out of range` validation and by the civil day count). -/
def daysInMonth (y m : Nat) : Nat :=
  if m = 2 then (if isLeapYear y then 29 else 28)
  else if m = 4 ∨ m = 6 ∨ m = 9 ∨ m = 11 then 30
  else 31

/-- Days in all months of year `y` strictly before month `m`. -/
def daysBeforeMonth (y m : Nat) : Nat :=
  ((List.range (m - 1)).map (fun k => daysInMonth y (k + 1))).sum

/-- Leap years in `[1, y-1]`. -/
def leapsBefore (y : Nat) : Nat := (y - 1) / 4 - (y - 1) / 100 + (y - 1) / 400

/-- Absolute civil day number of `(y, m, d)` (arbitrary fixed origin; only
differences are ever used).  For `1 ≤ m ≤ 12` and arbitrary `d ≥ 1` this
reproduces Go `time.Date`'s day-overflow normalization. -/
def civilDays (y m d : Nat) : Nat :=
  365 * (y - 1) + leapsBefore y + daysBeforeMonth y m + (d - 1)

/-- Modelled from the spec: `types.TimeToDaysSinceEpoch` lives in the
external `cimis-tsdb` dependency and is not in this repository's tree.  The
spec (§3 invariant, glossary `Epoch-relative timestamp`) and the source
comments on `Epoch`/`daysSinceEpoch` (client.go lines 27-32, 382-387)
describe it as the whole-day count since the fixed epoch 1985-01-01 UTC,
uint32-valued. -/
def TimeToDaysSinceEpoch (y m d : Nat) : Nat :=
  ((((civilDays y m d : Int) - (civilDays 1985 1 1 : Int)) % (2 ^ 32)).toNat)

/-- Go byte arithmetic `s[i] - '0'`: uint8 subtraction with wraparound
(`parseDateYYYYMMDD` performs no digit check, so this wrap is observable). -/
def digitByte (c : Char) : Nat := (c.toNat % 256 + 256 - 48) % 256

/-- Function `parseDateYYYYMMDD` from src/internal/api/client.go, lines
362-379: fixed-width manual parse (length 10, dashes at offsets 4 and 7,
byte arithmetic on the six runs) with the bounds check `1985 ≤ year ≤ 2100`,
`1 ≤ month ≤ 12`, `1 ≤ day ≤ 31`. -/
def parseDateYYYYMMDD (s : List Char) : Option (Nat × Nat × Nat) :=
  match s with
  | [c0, c1, c2, c3, c4, c5, c6, c7, c8, c9] =>
    if c4 = '-' ∧ c7 = '-' then
      let year := digitByte c0 * 1000 + digitByte c1 * 100 + digitByte c2 * 10 + digitByte c3
      let month := digitByte c5 * 10 + digitByte c6
      let day := digitByte c8 * 10 + digitByte c9
      if year < 1985 ∨ year > 2100 ∨ month < 1 ∨ month > 12 ∨ day < 1 ∨ day > 31 then
        none
      else some (year, month, day)
    else none
  | _ => none

/-- ASCII digit test used by the reference-parser model. -/
def isDigitChar (c : Char) : Prop := 48 ≤ c.toNat ∧ c.toNat ≤ 57

instance (c : Char) : Decidable (isDigitChar c) := by
  unfold isDigitChar
  infer_instance

/-- Go `time.Parse` with layout `2006-01-02` (the fallback and reference
calendar parser): four digits, dash, two digits, dash, two digits, with
calendar validation of the month (`1..12`) and of the day against the
month's length (Go rejects `day out of range`). -/
def goTimeParseDate (s : List Char) : Option (Nat × Nat × Nat) :=
  match s with
  | [c0, c1, c2, c3, c4, c5, c6, c7, c8, c9] =>
    if isDigitChar c0 ∧ isDigitChar c1 ∧ isDigitChar c2 ∧ isDigitChar c3 ∧ c4 = '-' ∧
        isDigitChar c5 ∧ isDigitChar c6 ∧ c7 = '-' ∧ isDigitChar c8 ∧ isDigitChar c9 then
      let year := (c0.toNat - 48) * 1000 + (c1.toNat - 48) * 100 +
        (c2.toNat - 48) * 10 + (c3.toNat - 48)
      let month := (c5.toNat - 48) * 10 + (c6.toNat - 48)
      let day := (c8.toNat - 48) * 10 + (c9.toNat - 48)
      if 1 ≤ month ∧ month ≤ 12 ∧ 1 ≤ day ∧ day ≤ daysInMonth year month then
        some (year, month, day)
      else none
    else none
  | _ => none

/-- Function `daysSinceEpoch` from client.go lines 382-387: feeds the parsed
components through `time.Date` (reproduced by the civil day formula) into
`TimeToDaysSinceEpoch`. -/
def daysSinceEpoch (y m d : Nat) : Nat := TimeToDaysSinceEpoch y m d

/-- The fast path of the streaming decoder: `parseDateYYYYMMDD` followed by
`daysSinceEpoch`. -/
def fastPathTs (s : List Char) : Option Nat :=
  (parseDateYYYYMMDD s).map (fun t => daysSinceEpoch t.1 t.2.1 t.2.2)

/-- The reference path: general-purpose calendar parse for layout
`2006-01-02` followed by `TimeToDaysSinceEpoch`. -/
def refPathTs (s : List Char) : Option Nat :=
  (goTimeParseDate s).map (fun t => TimeToDaysSinceEpoch t.1 t.2.1 t.2.2)

example : parseDateYYYYMMDD ("1985-01-01".data) = some (1985, 1, 1) := by decide
example : daysSinceEpoch 1985 1 1 = 0 := by decide
example : goTimeParseDate ("2020-02-29".data) = some (2020, 2, 29) := by decide
example : goTimeParseDate ("2021-02-29".data) = none := by decide
example : fastPathTs ("1986-01-01".data) = some 365 := by decide
example : refPathTs ("1986-01-01".data) = some 365 := by decide

/-- On an ASCII digit the byte arithmetic computes the digit value. -/
theorem digitByte_eq (c : Char) (h1 : 48 ≤ c.toNat) (h2 : c.toNat ≤ 57) :
    digitByte c = c.toNat - 48 := by
  unfold digitByte
  omega

/-- No month has more than 31 days. -/
theorem daysInMonth_le (y m : Nat) : daysInMonth y m ≤ 31 := by
  unfold daysInMonth
  split_ifs <;> omega

/-- C4: for every 10-character string accepted by the reference calendar
parser for layout `2006-01-02` (i.e. every string of the form `YYYY-MM-DD`
denoting a valid calendar date) with `1985 ≤ YYYY ≤ 2100`, the fast manual
parser accepts it with the same components, and the fast path
(`parseDateYYYYMMDD` then `daysSinceEpoch`) and the reference path
(calendar parse then `TimeToDaysSinceEpoch`) agree on the resulting
days-since-epoch timestamp. -/
theorem C4_fast_path_equiv (s : List Char) (y m d : Nat)
    (href : goTimeParseDate s = some (y, m, d))
    (hy1 : 1985 ≤ y) (hy2 : y ≤ 2100) :
    parseDateYYYYMMDD s = some (y, m, d) ∧
    fastPathTs s = some (daysSinceEpoch y m d) ∧
    refPathTs s = some (TimeToDaysSinceEpoch y m d) ∧
    fastPathTs s = refPathTs s := by
  rcases s with _|⟨c0,_|⟨c1,_|⟨c2,_|⟨c3,_|⟨c4,_|⟨c5,_|⟨c6,_|⟨c7,_|⟨c8,_|⟨c9,rest⟩⟩⟩⟩⟩⟩⟩⟩⟩⟩ <;>
    first
    | (refine absurd href ?_; simp [goTimeParseDate]; done)
    | skip
  rcases rest with _|⟨c10,rest⟩
  case cons.cons.cons.cons.cons.cons.cons.cons.cons.cons.cons =>
    refine absurd href ?_
    simp [goTimeParseDate]
  have href0 := href
  simp only [goTimeParseDate] at href
  split_ifs at href with hstruct hcal
  rcases hstruct with ⟨h0, h1, h2, h3, h4, h5, h6, h7, h8, h9⟩
  injection href with hv
  rw [Prod.mk.injEq, Prod.mk.injEq] at hv
  obtain ⟨hy, hm, hd⟩ := hv
  rcases h0 with ⟨h0a, h0b⟩
  rcases h1 with ⟨h1a, h1b⟩
  rcases h2 with ⟨h2a, h2b⟩
  rcases h3 with ⟨h3a, h3b⟩
  rcases h5 with ⟨h5a, h5b⟩
  rcases h6 with ⟨h6a, h6b⟩
  rcases h8 with ⟨h8a, h8b⟩
  rcases h9 with ⟨h9a, h9b⟩
  subst h4
  subst h7
  have hparse : parseDateYYYYMMDD [c0, c1, c2, c3, '-', c5, c6, '-', c8, c9] =
      some (y, m, d) := by
    simp only [parseDateYYYYMMDD,
      digitByte_eq c0 h0a h0b, digitByte_eq c1 h1a h1b,
      digitByte_eq c2 h2a h2b, digitByte_eq c3 h3a h3b,
      digitByte_eq c5 h5a h5b, digitByte_eq c6 h6a h6b,
      digitByte_eq c8 h8a h8b, digitByte_eq c9 h9a h9b]
    rw [if_pos (by constructor <;> trivial)]
    rw [hy, hm, hd] at hcal ⊢
    have hdim := daysInMonth_le y m
    rw [if_neg (by omega)]
  refine ⟨hparse, ?_, ?_, ?_⟩
  · simp [fastPathTs, hparse]
  · simp [refPathTs, href0]
  · simp [fastPathTs, refPathTs, hparse, href0, daysSinceEpoch]

/-! ## Streaming decode (src/unnamed/part_008) -/

/-- Witness for C4 at the leap day `2004-02-29`. -/
theorem C4_fast_path_equiv_witness :
    parseDateYYYYMMDD ("2004-02-29".data) = some (2004, 2, 29) ∧
    fastPathTs ("2004-02-29".data) = refPathTs ("2004-02-29".data) := by
  have h := C4_fast_path_equiv ("2004-02-29".data) 2004 2 29 (by decide) (by decide)
    (by decide)
  exact ⟨h.1, h.2.2.2⟩

/-- Stand-in for a `float64` wire value: the decode path's control flow
never branches on measurement values and no claim mentions them, so they are
carried as uninterpreted payloads (the external fixed-point scaling
`types.Scale*` is likewise payload-only here). -/
structure Float64 where
  payload : Int
  deriving DecidableEq, Repr

/-- Shape `StreamingDataValue`: a measurement as decoded from the wire,
with its quality-code string. -/
structure StreamingValue where
  Value : Float64
  Qc : List Char
  deriving DecidableEq, Repr

/-- Shape `StreamingDailyRecord` (part_008): the minimal per-record decode
target; absent measurements are `none` (nil pointers in Go). -/
structure StreamingDailyRecord where
  Date : List Char
  DayAirTmpAvg : Option StreamingValue
  DayAsceEto : Option StreamingValue
  DayWindSpdAvg : Option StreamingValue
  DayRelHumAvg : Option StreamingValue
  DaySolRadAvg : Option StreamingValue
  deriving DecidableEq, Repr

/-- Record `types.DailyRecord` of the external cimis-tsdb dependency:
`Timestamp` is uint32 days-since-epoch; measurement fields carry the
uninterpreted payloads (see `Float64`). -/
structure DailyRecord where
  Timestamp : Nat
  StationID : Nat
  Temperature : Float64
  ET : Float64
  WindSpeed : Float64
  Humidity : Float64
  SolarRadiation : Float64
  QCFlags : Nat
  deriving DecidableEq, Repr

/-- Go zero value `types.DailyRecord\x7b\x7d`, returned when both date parses
fail. -/
def zeroDailyRecord : DailyRecord := ⟨0, 0, ⟨0⟩, ⟨0⟩, ⟨0⟩, ⟨0⟩, ⟨0⟩, 0⟩

/-- Quality flag bit: set when the measurement is present and its `Qc` is
neither empty nor a single blank. -/
def qcBit (v : Option StreamingValue) (bit : Nat) : Nat :=
  match v with
  | some sv => if sv.Qc ≠ (" ".data) ∧ sv.Qc ≠ [] then bit else 0
  | none => 0

/-- Value extraction with Go zero default for absent measurements. -/
def valueOf (v : Option StreamingValue) : Float64 :=
  match v with
  | some sv => sv.Value
  | none => ⟨0⟩

/-- Function `streamingToDailyRecord` (part_008 lines 219-270): fast date
parse with `time.Parse` fallback; on double failure the zero record; else
the populated record with quality flags. -/
def streamingToDailyRecord (sdr : StreamingDailyRecord) (stationID : Nat) : DailyRecord :=
  let tsOpt : Option Nat :=
    match parseDateYYYYMMDD sdr.Date with
    | some (y, m, d) => some (daysSinceEpoch y m d)
    | none =>
      match goTimeParseDate sdr.Date with
      | some (y, m, d) => some (TimeToDaysSinceEpoch y m d)
      | none => none
  match tsOpt with
  | none => zeroDailyRecord
  | some ts =>
    { Timestamp := ts
      StationID := stationID
      Temperature := valueOf sdr.DayAirTmpAvg
      ET := valueOf sdr.DayAsceEto
      WindSpeed := valueOf sdr.DayWindSpdAvg
      Humidity := valueOf sdr.DayRelHumAvg
      SolarRadiation := valueOf sdr.DaySolRadAvg
      QCFlags := Nat.lor (qcBit sdr.DayAirTmpAvg 1) (qcBit sdr.DayAsceEto 2) }

/-- The record-conversion phase of `streamDecodeDaily` (part_008 lines
195-210): convert every record of every provider, keeping exactly those with
`Timestamp > 0`.  The token-stream navigation to `Data.Providers` (raw JSON
I/O) is upstream of this total function, which itself raises no error. -/
def streamDecodeDailyRecords (providers : List (List StreamingDailyRecord))
    (stationID : Nat) : List DailyRecord :=
  providers.flatMap (fun records =>
    (records.map (fun sdr => streamingToDailyRecord sdr stationID)).filter
      (fun r => decide (0 < r.Timestamp)))

/-- A wire record with the given date and no measurements. -/
def mkRecord (date : List Char) : StreamingDailyRecord :=
  ⟨date, none, none, none, none, none⟩

/-- Scenario of C6: three valid records and one with an unparsable date
(`not-a-date` is 10 characters long but fails both parsers). -/
def c6Scenario : List StreamingDailyRecord :=
  [mkRecord ("2021-07-01".data), mkRecord ("2021-07-02".data),
   mkRecord ("not-a-date".data), mkRecord ("2021-07-03".data)]

/-- A record whose date fails both parsers converts to the zero record. -/
theorem unparsable_date_ts_zero (sid : Nat) (sdr : StreamingDailyRecord)
    (h1 : parseDateYYYYMMDD sdr.Date = none)
    (h2 : goTimeParseDate sdr.Date = none) :
    (streamingToDailyRecord sdr sid).Timestamp = 0 := by
  unfold streamingToDailyRecord
  rw [h1, h2]
  rfl

/-- Membership in the decode output: exactly the conversions of input
records whose timestamp is positive. -/
theorem mem_streamDecode (sid : Nat) (providers : List (List StreamingDailyRecord))
    (r : DailyRecord) :
    r ∈ streamDecodeDailyRecords providers sid ↔
      (∃ records ∈ providers, ∃ sdr ∈ records,
        streamingToDailyRecord sdr sid = r) ∧ 0 < r.Timestamp := by
  simp only [streamDecodeDailyRecords, List.mem_flatMap, List.mem_filter,
    List.mem_map, decide_eq_true_eq]
  constructor
  · rintro ⟨records, hrec, ⟨⟨sdr, hsdr, hconv⟩, hts⟩⟩
    exact ⟨⟨records, hrec, sdr, hsdr, hconv⟩, hts⟩
  · rintro ⟨⟨records, hrec, sdr, hsdr, hconv⟩, hts⟩
    exact ⟨records, hrec, ⟨⟨sdr, hsdr, hconv⟩, hts⟩⟩

/-- C6: during streaming decode, a record whose date fails both the fast
and the fallback parser converts to timestamp 0 and is therefore omitted,
records are kept exactly when their epoch-relative timestamp is positive
(no error is raised either way — the conversion is total), and a body of
3 valid records plus one with an unparsable date decodes to exactly 3
records. -/
theorem C6_invalid_dropped (sid : Nat) :
    (∀ sdr : StreamingDailyRecord, parseDateYYYYMMDD sdr.Date = none →
      goTimeParseDate sdr.Date = none →
      (streamingToDailyRecord sdr sid).Timestamp = 0) ∧
    (∀ (providers : List (List StreamingDailyRecord)) (r : DailyRecord),
      r ∈ streamDecodeDailyRecords providers sid ↔
        (∃ records ∈ providers, ∃ sdr ∈ records,
          streamingToDailyRecord sdr sid = r) ∧ 0 < r.Timestamp) ∧
    (streamDecodeDailyRecords [c6Scenario] sid).length = 3 :=
  ⟨unparsable_date_ts_zero sid, mem_streamDecode sid, rfl⟩

/-- Witness for C6 at its concrete scenario. -/
theorem C6_invalid_dropped_witness :
    (streamingToDailyRecord (mkRecord ("not-a-date".data)) 7).Timestamp = 0 ∧
    (streamDecodeDailyRecords [c6Scenario] 7).length = 3 :=
  ⟨(C6_invalid_dropped 7).1 (mkRecord ("not-a-date".data)) rfl rfl,
   (C6_invalid_dropped 7).2.2⟩

/-- A wire record dated exactly at the epoch origin 1985-01-01. -/
def epochRecord : StreamingDailyRecord := mkRecord ("1985-01-01".data)

/-- C10: the decoder never returns a record with `Timestamp = 0`; a record
dated 1985-01-01 parses successfully on the fast path yet yields
days-since-epoch 0, so the `Timestamp > 0` validity check silently drops
it, exactly as it drops unparsable dates. -/
theorem C10_epoch_dropped (sid : Nat) :
    (∀ (providers : List (List StreamingDailyRecord)) (r : DailyRecord),
      r ∈ streamDecodeDailyRecords providers sid → r.Timestamp ≠ 0) ∧
    parseDateYYYYMMDD ("1985-01-01".data) = some (1985, 1, 1) ∧
    daysSinceEpoch 1985 1 1 = 0 ∧
    (∀ sdr : StreamingDailyRecord, sdr.Date = ("1985-01-01".data) →
      (streamingToDailyRecord sdr sid).Timestamp = 0) ∧
    streamDecodeDailyRecords [[epochRecord]] sid = [] := by
  refine ⟨?_, by decide, by decide, ?_, rfl⟩
  · intro providers r hr
    have h := ((mem_streamDecode sid providers r).1 hr).2
    omega
  · intro sdr hdate
    unfold streamingToDailyRecord
    rw [hdate]
    rfl

/-- Witness for C10 at the epoch-dated record. -/
theorem C10_epoch_dropped_witness :
    (streamingToDailyRecord epochRecord 3).Timestamp = 0 ∧
    streamDecodeDailyRecords [[epochRecord]] 3 = [] :=
  ⟨(C10_epoch_dropped 3).2.2.2.1 epochRecord rfl, (C10_epoch_dropped 3).2.2.2.2⟩


/-! ## Retry controller and per-station pipeline (`fetchStationStreaming`) -/

/-- Collaborator outcomes for one run: chunk existence per station, the
fetch outcome per (station, attempt), and the chunk-write / index-save
outcomes per station.  This is the environment the pipeline runs against. -/
structure FetchEnv where
  chunkExists : Nat → Bool
  fetchOutcome : Nat → Nat → Except GoError (List DailyRecord)
  writeOutcome : Nat → Except GoError Unit
  saveOutcome : Nat → Except GoError Unit

/-- Result record `stationFetchResult` (ingest_opt.go lines 879-894).  The
wall-clock timing fields, which no claim inspects, are omitted. -/
structure StationFetchResult where
  stationID : Nat
  success : Bool
  recordCount : Nat
  err : Option GoError
  deriving DecidableEq, Repr

/-- Collaborator call counts instrumenting the embedding. -/
structure CallTrace where
  fetchCalls : Nat
  writeCalls : Nat
  saveCalls : Nat
  deriving DecidableEq, Repr

/-- The retry loop of `fetchStationStreaming` (lines 925-951): attempts
`0..maxRetries`, stopping at the first success, with no consultation of the
error classifier; returns the last outcome and the number of fetch
invocations. -/
def retryLoop (fetch : Nat → Except GoError (List DailyRecord))
    (maxRetries attempt : Nat) : Except GoError (List DailyRecord) × Nat :=
  match fetch attempt with
  | .ok recs => (.ok recs, 1)
  | .error e =>
    if h : attempt < maxRetries then
      ((retryLoop fetch maxRetries (attempt + 1)).1,
       (retryLoop fetch maxRetries (attempt + 1)).2 + 1)
    else (.error e, 1)
termination_by maxRetries - attempt

/-- Function `fetchStationStreaming` (ingest_opt.go lines 896-990),
instrumented with collaborator call counts: idempotent skip when the chunk
exists, then the retry loop, then (unless dry-run or empty) the chunk write
and the metadata index save. -/
def fetchStationStreaming (env : FetchEnv) (stationID : Nat)
    (dryRun : Bool) (maxRetries : Nat) : StationFetchResult × CallTrace :=
  if env.chunkExists stationID then
    ({ stationID := stationID, success := true, recordCount := 0, err := none },
     { fetchCalls := 0, writeCalls := 0, saveCalls := 0 })
  else
    match retryLoop (env.fetchOutcome stationID) maxRetries 0 with
    | (.error e, n) =>
      ({ stationID := stationID, success := false, recordCount := 0, err := some e },
       { fetchCalls := n, writeCalls := 0, saveCalls := 0 })
    | (.ok records, n) =>
      if ¬ dryRun ∧ 0 < records.length then
        match env.writeOutcome stationID with
        | .error e =>
          ({ stationID := stationID, success := false,
             recordCount := records.length, err := some e },
           { fetchCalls := n, writeCalls := 1, saveCalls := 0 })
        | .ok _ =>
          match env.saveOutcome stationID with
          | .error e =>
            ({ stationID := stationID, success := false,
               recordCount := records.length, err := some e },
             { fetchCalls := n, writeCalls := 1, saveCalls := 1 })
          | .ok _ =>
            ({ stationID := stationID, success := true,
               recordCount := records.length, err := none },
             { fetchCalls := n, writeCalls := 1, saveCalls := 1 })
      else
        ({ stationID := stationID, success := true,
           recordCount := records.length, err := none },
         { fetchCalls := n, writeCalls := 0, saveCalls := 0 })

/-- When every attempt from `attempt` through `maxRetries` fails, the loop
performs `maxRetries - attempt + 1` calls and surfaces the outcome of
attempt `maxRetries`. -/
theorem retryLoop_all_fail (fetch : Nat → Except GoError (List DailyRecord))
    (maxRetries : Nat) :
    ∀ (k attempt : Nat), maxRetries - attempt = k → attempt ≤ maxRetries →
    (∀ n, n ≤ maxRetries → (fetch n).isOk = false) →
    (retryLoop fetch maxRetries attempt).2 = k + 1 ∧
    (retryLoop fetch maxRetries attempt).1 = fetch maxRetries := by
  intro k
  induction k with
  | zero =>
    intro attempt hk hle hfail
    have heq : attempt = maxRetries := by omega
    subst heq
    rw [retryLoop.eq_def]
    rcases hf : fetch attempt with e | recs
    · simp only [dif_neg (show ¬ attempt < attempt by omega)]
      exact ⟨trivial, trivial⟩
    · exact absurd (hfail attempt le_rfl) (by rw [hf]; simp [Except.isOk, Except.toBool])
  | succ k ih =>
    intro attempt hk hle hfail
    have hlt : attempt < maxRetries := by omega
    rw [retryLoop.eq_def]
    rcases hf : fetch attempt with e | recs
    · simp only [dif_pos hlt]
      have h2 := ih (attempt + 1) (by omega) (by omega) hfail
      exact ⟨by rw [h2.1], h2.2⟩
    · exact absurd (hfail attempt (by omega)) (by rw [hf]; simp [Except.isOk, Except.toBool])


/-- C2: with no pre-existing chunk, if every attempt up to `maxRetries`
fails then the pipeline invokes the fetch exactly `maxRetries + 1` times —
never more, and regardless of how each error would be classified, since the
loop never consults the classifier — and returns a failure carrying the
error of the last attempt. -/
theorem C2_retry_exhaustion (env : FetchEnv) (sid : Nat) (dryRun : Bool)
    (maxRetries : Nat)
    (hchunk : env.chunkExists sid = false)
    (hfail : ∀ n, n ≤ maxRetries → (env.fetchOutcome sid n).isOk = false) :
    ∃ e, env.fetchOutcome sid maxRetries = .error e ∧
      fetchStationStreaming env sid dryRun maxRetries =
        ({ stationID := sid, success := false, recordCount := 0, err := some e },
         { fetchCalls := maxRetries + 1, writeCalls := 0, saveCalls := 0 }) := by
  have h := retryLoop_all_fail (env.fetchOutcome sid) maxRetries maxRetries 0
    (by omega) (by omega) hfail
  rcases hf : env.fetchOutcome sid maxRetries with e | recs
  · refine ⟨e, rfl, ?_⟩
    have hrl : retryLoop (env.fetchOutcome sid) maxRetries 0 =
        (Except.error e, maxRetries + 1) := by
      have h1 := h.1
      have h2 := h.2
      rw [hf] at h2
      apply Prod.ext_iff.2
      refine ⟨h2, ?_⟩
      simp only [h1]
    unfold fetchStationStreaming
    rw [if_neg (by simp [hchunk]), hrl]
  · exact absurd (hfail maxRetries le_rfl)
      (by rw [hf]; simp [Except.isOk, Except.toBool])

/-- Witness for C2: a station whose three attempts (maxRetries = 2) all fail
with the same transport error yields three fetch calls and that error. -/
theorem C2_retry_exhaustion_witness :
    fetchStationStreaming
      ⟨fun _ => false, fun _ _ => .error ("connection refused".data),
       fun _ => .ok (), fun _ => .ok ()⟩ 7 false 2 =
      ({ stationID := 7, success := false, recordCount := 0,
         err := some ("connection refused".data) },
       { fetchCalls := 3, writeCalls := 0, saveCalls := 0 }) := by
  obtain ⟨e, he, hres⟩ := C2_retry_exhaustion
    ⟨fun _ => false, fun _ _ => .error ("connection refused".data),
     fun _ => .ok (), fun _ => .ok ()⟩ 7 false 2 rfl (fun n _ => rfl)
  injection he with he2
  rw [hres, ← he2]

/-- C7: when the chunk already exists for the station and year, the pipeline
reports a vacuous success with zero records, invoking neither the fetch
client nor the chunk writer nor the metadata index. -/
theorem C7_idempotent_skip (env : FetchEnv) (sid : Nat) (dryRun : Bool)
    (maxRetries : Nat) (hchunk : env.chunkExists sid = true) :
    fetchStationStreaming env sid dryRun maxRetries =
      ({ stationID := sid, success := true, recordCount := 0, err := none },
       { fetchCalls := 0, writeCalls := 0, saveCalls := 0 }) := by
  unfold fetchStationStreaming
  rw [if_pos hchunk]

/-- Witness for C7 at a concrete environment with the chunk present. -/
theorem C7_idempotent_skip_witness :
    fetchStationStreaming
      ⟨fun _ => true, fun _ _ => .error ("unreachable".data),
       fun _ => .ok (), fun _ => .ok ()⟩ 2 false 3 =
      ({ stationID := 2, success := true, recordCount := 0, err := none },
       { fetchCalls := 0, writeCalls := 0, saveCalls := 0 }) :=
  C7_idempotent_skip
    ⟨fun _ => true, fun _ _ => .error ("unreachable".data),
     fun _ => .ok (), fun _ => .ok ()⟩ 2 false 3 rfl

/-- Two's-complement int64 wraparound: the representative of `x` modulo
`2 ^ 64` in `[-2^63, 2^63)`. -/
def wrap64 (x : Int) : Int := (x + 2 ^ 63) % 2 ^ 64 - 2 ^ 63

/-- Go `1 << attempt` on int64: `2 ^ attempt` wrapped (shift count 63 gives
the minimum int64, counts of 64 and above give 0, exactly as in Go). -/
def goShl1 (attempt : Nat) : Int := wrap64 (2 ^ attempt)

/-- The backoff/jitter computation of `fetchStationStreaming` (lines
925-930), in nanoseconds, with int64 semantics: no sleep before attempt 0;
before retry `n ≥ 1` the sleep duration is `backoff + jitter` where
`backoff = Duration(1 << n) * Second` (each step wrapping int64) and
`jitter = UnixNano % (backoff / 2)` with Go's truncated `/` and `%`
(`Int.tdiv` / `Int.tmod`).  When `backoff / 2` is 0 (shift count 64 and
above) the `%` panics at run time, modelled as `none`. -/
def sleepBeforeAttempt (attempt : Nat) (nowUnixNano : Int) : Option Int :=
  if attempt = 0 then some 0
  else if Int.tdiv (wrap64 (goShl1 attempt * 1000000000)) 2 = 0 then none
  else
    some (wrap64 (wrap64 (goShl1 attempt * 1000000000) +
      Int.tmod nowUnixNano (Int.tdiv (wrap64 (goShl1 attempt * 1000000000)) 2)))

/-- Int64 wraparound is the identity on in-range values. -/
theorem wrap64_eq_self (x : Int) (h1 : -(2 ^ 63) ≤ x) (h2 : x < 2 ^ 63) :
    wrap64 x = x := by
  unfold wrap64
  omega

/-- C8 (amended): no sleep precedes the first attempt, and for every retry
`n` with `1 ≤ n ≤ 32` and every nonnegative clock value the computed sleep
is `2 ^ n` seconds plus the clock modulo `2 ^ (n-1)` seconds, hence lies in
`[2 ^ n, 2 ^ n + 2 ^ (n-1))` seconds.  From `n = 33` up the int64
computation wraps (see the counterexample), so the interval is not claimed
there. -/
theorem C8_backoff_bounds (n : Nat) (now : Int) (hn : 1 ≤ n) (hn32 : n ≤ 32)
    (hnow : 0 ≤ now) :
    sleepBeforeAttempt 0 now = some 0 ∧
    sleepBeforeAttempt n now = some ((2 : Int) ^ n * 1000000000 +
      Int.tmod now ((2 : Int) ^ (n - 1) * 1000000000)) ∧
    (2 : Int) ^ n * 1000000000 ≤ (2 : Int) ^ n * 1000000000 +
      Int.tmod now ((2 : Int) ^ (n - 1) * 1000000000) ∧
    (2 : Int) ^ n * 1000000000 +
        Int.tmod now ((2 : Int) ^ (n - 1) * 1000000000) <
      (2 : Int) ^ n * 1000000000 + (2 : Int) ^ (n - 1) * 1000000000 := by
  have hpow : (2 : Int) ^ n = 2 * (2 : Int) ^ (n - 1) := by
    conv_lhs => rw [show n = n - 1 + 1 by omega]
    rw [pow_succ]
    ring
  have hn0 : (0 : Int) ≤ (2 : Int) ^ n := by positivity
  have hn0h : (0 : Int) ≤ (2 : Int) ^ (n - 1) := by positivity
  have hle : (2 : Int) ^ n ≤ (2 : Int) ^ 32 := pow_le_pow_right₀ (by norm_num) hn32
  have hleh : (2 : Int) ^ (n - 1) ≤ (2 : Int) ^ 31 :=
    pow_le_pow_right₀ (by norm_num) (by omega)
  have hpos : (0 : Int) < (2 : Int) ^ (n - 1) * 1000000000 := by positivity
  have hj0 : 0 ≤ Int.tmod now ((2 : Int) ^ (n - 1) * 1000000000) :=
    Int.tmod_nonneg _ hnow
  have hj1 : Int.tmod now ((2 : Int) ^ (n - 1) * 1000000000) <
      (2 : Int) ^ (n - 1) * 1000000000 :=
    Int.tmod_lt_of_pos now hpos
  have hshl : goShl1 n = (2 : Int) ^ n := by
    unfold goShl1
    exact wrap64_eq_self _ (by omega) (by nlinarith)
  have hbk : wrap64 ((2 : Int) ^ n * 1000000000) = (2 : Int) ^ n * 1000000000 := by
    refine wrap64_eq_self _ (by nlinarith) (by nlinarith)
  have hhalf : Int.tdiv ((2 : Int) ^ n * 1000000000) 2 =
      (2 : Int) ^ (n - 1) * 1000000000 := by
    rw [hpow, mul_assoc]
    exact Int.mul_tdiv_cancel_left _ (by norm_num)
  have hsum : wrap64 ((2 : Int) ^ n * 1000000000 +
      Int.tmod now ((2 : Int) ^ (n - 1) * 1000000000)) =
      (2 : Int) ^ n * 1000000000 +
        Int.tmod now ((2 : Int) ^ (n - 1) * 1000000000) := by
    refine wrap64_eq_self _ (by nlinarith) (by nlinarith)
  refine ⟨rfl, ?_, by omega, by omega⟩
  unfold sleepBeforeAttempt
  rw [if_neg (by omega), hshl, hbk, hhalf,
    if_neg (ne_of_gt hpos), hsum]

/-- Witness for C8 at retry 1 with a concrete clock: the sleep lands in
`[2s, 3s)`. -/
theorem C8_backoff_bounds_witness :
    sleepBeforeAttempt 0 1234567 = some 0 ∧
    sleepBeforeAttempt 1 1234567 = some 2001234567 ∧
    (2000000000 : Int) ≤ 2001234567 ∧ (2001234567 : Int) < 3000000000 := by
  have h := C8_backoff_bounds 1 1234567 (by norm_num) (by norm_num) (by norm_num)
  refine ⟨h.1, ?_, by norm_num, by norm_num⟩
  rw [h.2.1]
  decide

/-- Counterexample to C8 as stated: at retry 34 with clock 0 the int64
multiplication `Duration(1 << 34) * Second` wraps, so the computed sleep is
negative (an immediate wake), far below the claimed lower bound of `2 ^ 34`
seconds; and already at retry 33, with the (1990-era) clock value
633437444854775808, the addition `backoff + jitter` wraps to the minimum
int64. -/
theorem C8_wrap_counterexample :
    (sleepBeforeAttempt 34 0 = some (-1266874889709551616) ∧
      (-1266874889709551616 : Int) < (2 : Int) ^ 34 * 1000000000) ∧
    (sleepBeforeAttempt 33 633437444854775808 = some (-9223372036854775808) ∧
      (-9223372036854775808 : Int) < (2 : Int) ^ 33 * 1000000000) := by
  refine ⟨⟨?_, by norm_num⟩, ⟨?_, by norm_num⟩⟩
  · decide
  · decide

/-! ## Worker-pool dispatch and aggregation (`cmdFetchStreaming`) -/

/-- Summary block printed by `cmdFetchStreaming` (lines 803-807). -/
structure FetchSummary where
  stationsProcessed : Nat
  successful : Nat
  failed : Nat
  totalRecords : Nat
  deriving DecidableEq, Repr

/-- One worker goroutine (lines 772-781): it drains its share of the jobs
channel, invoking the per-station pipeline once per job and emitting one
result per job. -/
def workerRun (env : FetchEnv) (dryRun : Bool) (maxRetries : Nat)
    (share : List Nat) : List StationFetchResult :=
  share.map (fun sid => (fetchStationStreaming env sid dryRun maxRetries).1)

/-- The collection loop and summary of `cmdFetchStreaming` (lines 788-807):
receive exactly `stationList.length` results from the arrival stream and
tally successes, failures and records; `stationsProcessed` is printed as
`len(stationList)`. -/
def collectSummary (stationList : List Nat)
    (arrivals : List StationFetchResult) : FetchSummary :=
  let collected := arrivals.take stationList.length
  { stationsProcessed := stationList.length
    successful := (collected.filter (fun r => r.success)).length
    failed := (collected.filter (fun r => !r.success)).length
    totalRecords := ((collected.filter (fun r => r.success)).map
      (fun r => r.recordCount)).sum }

/-- Workers emit exactly as many results as they consume jobs. -/
theorem workerRun_total_length (env : FetchEnv) (dryRun : Bool)
    (maxRetries : Nat) (shares : List (List Nat)) :
    (shares.flatMap (workerRun env dryRun maxRetries)).length =
      (shares.flatMap id).length := by
  induction shares with
  | nil => rfl
  | cons share rest ih =>
    simp only [List.flatMap_cons, List.length_append, workerRun,
      List.length_map, ih, id]

/-- C3: one job is enqueued per element of the resolved station list (the
jobs list is the station list itself), and for every division of those jobs
among the workers in which each job is consumed exactly once — any worker
count ≥ 1 yields such a division — the workers emit exactly one result per
job.  Hence however the emissions interleave into the arrival stream, that
stream holds exactly `N` results: the collector's `N`-iteration receive loop
consumes all of them and the summary reports `N` stations processed,
independent of the worker count. -/
theorem C3_fan_out_fan_in (env : FetchEnv) (dryRun : Bool) (maxRetries : Nat)
    (stationList : List Nat) (shares : List (List Nat))
    (arrivals : List StationFetchResult)
    (hshares : (shares.flatMap id).Perm stationList)
    (harr : arrivals.Perm (shares.flatMap (workerRun env dryRun maxRetries))) :
    arrivals.length = stationList.length ∧
    arrivals.take stationList.length = arrivals ∧
    (collectSummary stationList arrivals).stationsProcessed =
      stationList.length := by
  have hlen : arrivals.length = stationList.length := by
    rw [harr.length_eq, workerRun_total_length, hshares.length_eq]
  refine ⟨hlen, ?_, rfl⟩
  rw [← hlen, List.take_length]

/-- Witness for C3: two stations split across two workers produce exactly
two results. -/
theorem C3_fan_out_fan_in_witness :
    (([[2], [5]] : List (List Nat)).flatMap
        (workerRun ⟨fun _ => true, fun _ _ => .error [], fun _ => .ok (),
          fun _ => .ok ()⟩ false 3)).length = 2 := by
  have h := C3_fan_out_fan_in
    ⟨fun _ => true, fun _ _ => .error [], fun _ => .ok (), fun _ => .ok ()⟩
    false 3 [2, 5] [[2], [5]]
    (([[2], [5]] : List (List Nat)).flatMap
      (workerRun ⟨fun _ => true, fun _ _ => .error [], fun _ => .ok (),
        fun _ => .ok ()⟩ false 3))
    (List.Perm.refl _) (List.Perm.refl _)
  exact h.1

end Cimis
